import Mathlib

/-!
# Verification of the rkyv serializer core

Shallow embedding of `src/rkyv/src/ser/mod.rs` (the `Serializer`,
`SeekSerializer` and `SharedSerializer` traits with their default methods),
`src/rkyv/src/indexmap.rs` and `src/rkyv/src/primarymap.rs`.

The byte sink is the abstract sink of the `Serializer` trait: a buffer of
bytes together with a write cursor.  A cell of the buffer is `none` when the
position was never written (never-initialized), `some b` once the byte `b`
has been written there.  Fallibility of the underlying medium (`write`
returning `Err`) is realised by an optional capacity: a write whose end would
exceed the capacity is rejected by the medium with an IO failure, matching
the trait's fallible `write`.  `seek` (from `SeekSerializer`) moves the
cursor to an absolute position and is fallible in the same way — its error
is propagated by the root-archiving functions.

Rust `usize` positions are modelled as `Nat` (positions only grow by
addition, no overflow behaviour is relied upon by the source).
-/

namespace Rkyv

/-- Error type of a serialization pass (`Fallible::Error`).  `ioFailure` is
the error produced by the sink medium rejecting a write; `custom n` stands
for the errors user `Serialize` impls may return during phase 1. -/
inductive SerError : Type
  | ioFailure : SerError
  | custom : Nat → SerError
deriving DecidableEq, Repr

/-- The state of the byte sink: buffer cells (`none` = never written),
write cursor, and the medium's optional capacity. -/
structure SinkState : Type where
  buf : List (Option Nat)
  pos : Nat
  cap : Option Nat
deriving DecidableEq, Repr

/-- The byte stored at position `i`, `none` when `i` was never written. -/
def byteAt : List (Option Nat) → Nat → Option Nat
  | [], _ => none
  | b :: _, 0 => b
  | _ :: t, n + 1 => byteAt t n

/-- Overwrite position `i` of the buffer with byte `b`, extending the buffer
with never-initialized cells when `i` lies beyond its end. -/
def setByte : List (Option Nat) → Nat → Nat → List (Option Nat)
  | [], 0, b => [some b]
  | [], n + 1, b => none :: setByte [] n b
  | _ :: t, 0, b => some b :: t
  | h :: t, n + 1, b => h :: setByte t n b

/-- Write the bytes `bs` starting at position `p` of the buffer. -/
def setBytes (buf : List (Option Nat)) (p : Nat) : List Nat → List (Option Nat)
  | [] => buf
  | b :: bs => setBytes (setByte buf p b) (p + 1) bs

/-- Read back `len` cells starting at position `p`. -/
def readBytes (buf : List (Option Nat)) (p len : Nat) : List (Option Nat) :=
  (List.range len).map (fun i => byteAt buf (p + i))

/-- Embedding of `Serializer::pos`. -/
def SinkState.position (s : SinkState) : Nat := s.pos

/-- Whether the medium accepts a write ending at `endPos`: a capacity of
`none` accepts everything, `some c` rejects writes past `c`. -/
def capAllows (cap : Option Nat) (endPos : Nat) : Bool :=
  match cap with
  | some c => endPos ≤ c
  | none => true

/-- Embedding of `Serializer::write(bytes)`: the medium accepts the write iff it fits the
capacity; on success the bytes are placed at the cursor and the cursor
advances past them.  On rejection nothing is written. -/
def write (s : SinkState) (bytes : List Nat) : Except SerError Unit × SinkState :=
  if capAllows s.cap (s.pos + bytes.length) then
    (.ok (), { s with buf := setBytes s.buf s.pos bytes, pos := s.pos + bytes.length })
  else
    (.error .ioFailure, s)

/-- The chunk constant `ZEROES_LEN` from `Serializer::pad`. -/
def ZEROES_LEN : Nat := 16

/-- Embedding of `Serializer::pad(padding)`: writes zero bytes in chunks of at most
`ZEROES_LEN` until `padding` bytes of zeroes have been appended. -/
def pad (s : SinkState) (padding : Nat) : Except SerError Unit × SinkState :=
  if h : 0 < padding then
    let len := Nat.min ZEROES_LEN padding
    match write s (List.replicate len 0) with
    | (.error e, s') => (.error e, s')
    | (.ok _, s') => pad s' (padding - len)
  else
    (.ok (), s)
termination_by padding
decreasing_by
  simp only [ZEROES_LEN, Nat.min_def]
  split <;> omega

/-- Embedding of `Serializer::align(align)`: pads until the position is a multiple of
`align` (a power of two) and returns the resulting position.  The offset
computation `pos & (align - 1)` is the source's bitwise and. -/
def align (s : SinkState) (algn : Nat) : Except SerError Nat × SinkState :=
  let offset := Nat.land s.pos (algn - 1)
  if offset ≠ 0 then
    match pad s (algn - offset) with
    | (.error e, s') => (.error e, s')
    | (.ok _, s') => (.ok s'.pos, s')
  else
    (.ok s.pos, s)

/-- The archived form of a sized type `T`: `size_of::<T::Archived>()`,
`align_of::<T::Archived>()` (a power of two, as Rust guarantees), and the
pure phase-2 computation `T::resolve(pos, resolver)` producing the archived
bytes, whose length is the type's size. -/
structure ArchType (Res : Type) : Type where
  size : Nat
  alignment : Nat
  align_pow : ∃ k, alignment = 2 ^ k
  resolve : Nat → Res → List Nat
  resolve_len : ∀ p r, (resolve p r).length = size

/-- A phase-1 serialization function `T::serialize` (or any other fallible
step run against the sink): it may write dependent bytes and returns a
value (for `serialize`, the resolver). -/
def Phase1 (α : Type) : Type := SinkState → Except SerError α × SinkState

/-- Embedding of `Serializer::align_for::<T>()`. -/
def align_for (A : ArchType Res) (s : SinkState) : Except SerError Nat × SinkState :=
  align s A.alignment

/-- The condition of the `debug_assert!` in `resolve_aligned`:
`pos & (align_of::<T::Archived>() - 1) == 0`. -/
def resolveAlignedAssert (A : ArchType Res) (s : SinkState) : Bool :=
  Nat.land s.pos (A.alignment - 1) == 0

/-- Embedding of `Serializer::resolve_aligned(value, resolver)`: resolves the value at the
current position and writes the archived bytes, returning that position.
(The debug assertion on alignment is the separate `resolveAlignedAssert`;
like a Rust release build, execution proceeds regardless.) -/
def resolve_aligned (A : ArchType Res) (r : Res) (s : SinkState) :
    Except SerError Nat × SinkState :=
  match write s (A.resolve s.pos r) with
  | (.error e, s') => (.error e, s')
  | (.ok _, s') => (.ok s.pos, s')

/-- Embedding of `Serializer::serialize_value(value)`: phase 1 (`value.serialize`), then
`align_for::<T::Archived>`, then `resolve_aligned`. -/
def serialize_value (ser : Phase1 Res) (A : ArchType Res) (s : SinkState) :
    Except SerError Nat × SinkState :=
  match ser s with
  | (.error e, s') => (.error e, s')
  | (.ok r, s1) =>
    match align_for A s1 with
    | (.error e, s') => (.error e, s')
    | (.ok _, s2) => resolve_aligned A r s2

/-- The archived reference form of an unsized type `T`:
`size_of::<RelPtr<T::Archived>>()`, its alignment, and the pure
`T::resolve_unsized(from, tgt, metadata_resolver)` computing the
relative-pointer-plus-metadata record. -/
structure UnsizedType (MRes : Type) : Type where
  relSize : Nat
  relAlignment : Nat
  relAlign_pow : ∃ k, relAlignment = 2 ^ k
  resolve_unsized : Nat → Nat → MRes → List Nat
  resolve_unsized_len : ∀ f t m, (resolve_unsized f t m).length = relSize

/-- The debug assertion condition of `resolve_unsized_aligned`. -/
def resolveUnsizedAssert (U : UnsizedType MRes) (s : SinkState) : Bool :=
  Nat.land s.pos (U.relAlignment - 1) == 0

/-- Embedding of `Serializer::resolve_unsized_aligned(value, tgt, metadata_resolver)`:
computes the relative-pointer record based at the current position and
writes it, returning that position. -/
def resolve_unsized_aligned (U : UnsizedType MRes) (tgt : Nat) (m : MRes) (s : SinkState) :
    Except SerError Nat × SinkState :=
  match write s (U.resolve_unsized s.pos tgt m) with
  | (.error e, s') => (.error e, s')
  | (.ok _, s') => (.ok s.pos, s')

/-- Embedding of `Serializer::serialize_unsized_value(value)`: write the unsized payload
(`serialize_unsized`, returning its position `tgt`), serialize the metadata,
align for `RelPtr<T::Archived>`, then write the relative-pointer record. -/
def serialize_unsized_value (serU : Phase1 Nat) (serMeta : Phase1 MRes)
    (U : UnsizedType MRes) (s : SinkState) : Except SerError Nat × SinkState :=
  match serU s with
  | (.error e, s') => (.error e, s')
  | (.ok tgt, s1) =>
    match serMeta s1 with
    | (.error e, s') => (.error e, s')
    | (.ok m, s2) =>
      match align s2 U.relAlignment with
      | (.error e, s') => (.error e, s')
      | (.ok _, s3) => resolve_unsized_aligned U tgt m s3

/-- Embedding of `SeekSerializer::seek(pos)`: moves the cursor to an
absolute position.  Like `write`, it is fallible — the trait method returns
a `Result` whose error the root-archiving functions propagate with `?`; the
medium's rejection is modelled by the same capacity bound: a seek to a
position beyond the capacity fails and leaves the sink untouched. -/
def seek (s : SinkState) (p : Nat) : Except SerError Unit × SinkState :=
  if capAllows s.cap p then
    (.ok (), { s with pos := p })
  else
    (.error .ioFailure, s)

/-- Embedding of `SeekSerializer::archive_root(value)`: align, remember `pos`, seek
forward by `size_of::<T::Archived>()` to reserve the header space, run
phase 1 (dependents land after the reservation), seek back, resolve and
write the header at `pos`, and return `pos`. -/
def archive_root (ser : Phase1 Res) (A : ArchType Res) (s : SinkState) :
    Except SerError Nat × SinkState :=
  match align_for A s with
  | (.error e, s') => (.error e, s')
  | (.ok _, s1) =>
    let pos := s1.pos
    match seek s1 (pos + A.size) with
    | (.error e, s') => (.error e, s')
    | (.ok _, s2) =>
      match ser s2 with
      | (.error e, s') => (.error e, s')
      | (.ok r, s3) =>
        match seek s3 pos with
        | (.error e, s') => (.error e, s')
        | (.ok _, s4) =>
          match resolve_aligned A r s4 with
          | (.error e, s') => (.error e, s')
          | (.ok _, s5) => (.ok pos, s5)

/-- Embedding of `SeekSerializer::archive_ref_root(value)`: the unsized analogue of
`archive_root`: reserve `size_of::<RelPtr<T::Archived>>()` bytes, write the
payload and metadata, seek back and write the relative-pointer record. -/
def archive_ref_root (serU : Phase1 Nat) (serMeta : Phase1 MRes)
    (U : UnsizedType MRes) (s : SinkState) : Except SerError Nat × SinkState :=
  match align s U.relAlignment with
  | (.error e, s') => (.error e, s')
  | (.ok _, s1) =>
    let pos := s1.pos
    match seek s1 (pos + U.relSize) with
    | (.error e, s') => (.error e, s')
    | (.ok _, s2) =>
      match serU s2 with
      | (.error e, s') => (.error e, s')
      | (.ok tgt, s3) =>
        match serMeta s3 with
        | (.error e, s') => (.error e, s')
        | (.ok m, s4) =>
          match seek s4 pos with
          | (.error e, s') => (.error e, s')
          | (.ok _, s5) => resolve_unsized_aligned U tgt m s5

/-! ## Concrete instances used to exercise the entry points -/

/-- A concrete archived type: a 4-byte, 4-aligned little-endian encoding of
a `Nat` resolver, like `u32`. -/
def natArch : ArchType Nat where
  size := 4
  alignment := 4
  align_pow := ⟨2, rfl⟩
  resolve := fun _ r => [r % 256, r / 256 % 256, r / 65536 % 256, r / 16777216 % 256]
  resolve_len := fun _ _ => rfl

/-- A phase-1 function that writes nothing and returns a constant resolver. -/
def serConst (r : Nat) : Phase1 Nat := fun s => (.ok r, s)

/-- A phase-1 function that fails with the given error, writing nothing. -/
def serFail (e : SerError) : Phase1 Nat := fun s => (.error e, s)

/-- A fresh unbounded sink. -/
def emptySink : SinkState := ⟨[], 0, none⟩

/-- A phase-1 function that writes the given dependent bytes at the current
position and returns their start position as its resolver. -/
def serWrite (bs : List Nat) : Phase1 Nat := fun s =>
  match write s bs with
  | (.error e, s') => (.error e, s')
  | (.ok _, s') => (.ok s.pos, s')

/-- Spec-side definition for C2, following the spec's words: "directly
constructing the header at that position without the reserve/seek/patch
sequence" is running `resolve(pos, resolver)` and taking its bytes. -/
def directHeaderBytes (A : ArchType Res) (p : Nat) (r : Res) : List Nat :=
  A.resolve p r

/-- The function `archive_root` instrumented to also return the list of seek events it
performs — (sink state at the moment of the seek, absolute target) — in
order.  The first component is exactly `archive_root`. -/
def archive_root_traced (ser : Phase1 Res) (A : ArchType Res) (s : SinkState) :
    (Except SerError Nat × SinkState) × List (SinkState × Nat) :=
  match align_for A s with
  | (.error e, s') => ((.error e, s'), [])
  | (.ok _, s1) =>
    match seek s1 (s1.pos + A.size) with
    | (.error e, s') => ((.error e, s'), [(s1, s1.pos + A.size)])
    | (.ok _, s2) =>
      match ser s2 with
      | (.error e, s') => ((.error e, s'), [(s1, s1.pos + A.size)])
      | (.ok r, s3) =>
        match seek s3 s1.pos with
        | (.error e, s') => ((.error e, s'), [(s1, s1.pos + A.size), (s3, s1.pos)])
        | (.ok _, s4) =>
          match resolve_aligned A r s4 with
          | (.error e, s') => ((.error e, s'), [(s1, s1.pos + A.size), (s3, s1.pos)])
          | (.ok _, s5) => ((.ok s1.pos, s5), [(s1, s1.pos + A.size), (s3, s1.pos)])

/-- Well-behavedness of a phase-1 function as root archiving uses it: run
from a cursor at or past the end of the buffer, it only moves the cursor
forward, never leaves the buffer extending past its final cursor, never
shrinks the buffer, leaves bytes below its starting cursor untouched, and
initializes every position between its starting and final cursor.  Phase-1
functions built from the `Serializer` primitives (`write`, `pad`, `align`,
nested `serialize_value`, ...) have this shape: they write contiguously at
the cursor. -/
def PhaseOneOk (ser : Phase1 Res) : Prop :=
  ∀ s r s', ser s = (.ok r, s') → s.buf.length ≤ s.pos →
    s.pos ≤ s'.pos ∧ s'.buf.length ≤ s'.pos ∧ s.buf.length ≤ s'.buf.length ∧
    (∀ i, i < s.pos → byteAt s'.buf i = byteAt s.buf i) ∧
    (∀ i, s.pos ≤ i → i < s'.pos → byteAt s'.buf i ≠ none)

/-! ## Shared-object deduplication (C5) -/

/-- State of a shared serializer: the sink plus the shared-object cache,
a mapping from a source value's identity token to the position it was
archived at. -/
structure SharedState : Type where
  sink : SinkState
  cache : List (Nat × Nat)
deriving DecidableEq, Repr

/-- Look an identity token up in the shared-object cache. -/
def lookupCache : List (Nat × Nat) → Nat → Option Nat
  | [], _ => none
  | (k, v) :: t, ident => if k = ident then some v else lookupCache t ident

/-- Modelled from the spec: `SharedSerializer::archive_shared` is only a
trait declaration in `src/rkyv/src/ser/mod.rs`; the implementing adapter is
not under `src/`.  Per the spec (§4.5), the first call for a given source
identity fully archives the value (running its serialization against the
sink, which returns the archived position) and records
(identity → position) in the cache; a later call with the same identity
returns the cached position and performs no writes. -/
def archive_shared (serVal : Phase1 Nat) (ident : Nat) (st : SharedState) :
    Except SerError Nat × SharedState :=
  match lookupCache st.cache ident with
  | some pos => (.ok pos, st)
  | none =>
    match serVal st.sink with
    | (.error e, s') => (.error e, { st with sink := s' })
    | (.ok pos, s') => (.ok pos, { sink := s', cache := (ident, pos) :: st.cache })

/-! ## The IndexMap adapter (C3) -/

/-- Model of the external `indexmap::IndexMap`: an insertion-ordered
association list with unique keys.  `insert` of an existing key updates the
value in place, keeping its position; a new key is appended at the end. -/
def imInsert {K V : Type} [DecidableEq K] : List (K × V) → K → V → List (K × V)
  | [], k, v => [(k, v)]
  | (k0, v0) :: t, k, v =>
    if k0 = k then (k0, v) :: t else (k0, v0) :: imInsert t k v

/-- The keys of an association list, in storage order. -/
def imKeys {K V : Type} (m : List (K × V)) : List K := m.map Prod.fst

/-- Modelled from the spec: the hash-displacement codec that
`Serialize for IndexMap` delegates to (`ArchivedHashMap::serialize_from_iter`
in `std_impl::chd`, not under `src/`) stores exactly the iterated pairs and
iterates them back in an unspecified order.  `chdPossibleIteration m a`
holds when `a` is a possible read-back iteration order of the archived map
built from the entries `m`: any permutation of them. -/
abbrev chdPossibleIteration {K V : Type} (m a : List (K × V)) : Prop := a.Perm m

/-- Embedding of `Deserialize for Archived<IndexMap<K, V>>` from
`src/rkyv/src/indexmap.rs`: iterate the archived entries and insert each
pair into a fresh `IndexMap` (element deserialization modelled as the
identity). -/
def deserializeIndexMap {K V : Type} [DecidableEq K] (entries : List (K × V)) :
    List (K × V) :=
  entries.foldl (fun mp kv => imInsert mp kv.1 kv.2) []

/-! ## The PrimaryMap adapter (C4) -/

/-- Mirror of `PrimaryMapPub` from `src/rkyv/src/primarymap.rs`: the
adapter asserts a `PrimaryMap` consists of exactly one element vector (the
key type stores nothing; it is a typed index). -/
structure PrimaryMapPub (V : Type) : Type where
  elems : List V
deriving DecidableEq, Repr

/-- Embedding of `PrimaryMap::push`: sequential insertion appends at the next index and
returns that index as the key. -/
def pmPush {V : Type} (m : PrimaryMapPub V) (v : V) : PrimaryMapPub V × Nat :=
  (⟨m.elems ++ [v]⟩, m.elems.length)

/-- Modelled from the spec: the sequence codec that the `PrimaryMap`
adapter delegates to (`ArchivedVec` in `std_impl`, not under `src/`)
archives a vector as its elements in storage order; element archiving is
modelled as the identity. -/
def archivedVec {V : Type} (elems : List V) : List V := elems

/-- Embedding of `Serialize for PrimaryMap` (`src/rkyv/src/primarymap.rs`):
reach into the map's layout (`PrimaryMapPub`) and serialize its element
vector through the sequence codec. -/
def archivePrimaryMap {V : Type} (m : PrimaryMapPub V) : List V :=
  archivedVec m.elems

/-- Embedding of `Deserialize for Archived<PrimaryMap>` (`src/rkyv/src/primarymap.rs`):
deserialize the element vector and rebuild the map around it. -/
def deserializePrimaryMap {V : Type} (a : List V) : PrimaryMapPub V := ⟨a⟩

/-- Indexing a `PrimaryMap` by a key (a plain index). -/
def pmGet {V : Type} (m : PrimaryMapPub V) (i : Nat) : Option V := m.elems[i]?

/-! ## Basic buffer lemmas -/

theorem byteAt_setByte_self (buf : List (Option Nat)) (i b : Nat) :
    byteAt (setByte buf i b) i = some b := by
  induction buf generalizing i with
  | nil =>
    induction i with
    | zero => rfl
    | succ n ih => simpa [setByte, byteAt] using ih
  | cons h t ih =>
    cases i with
    | zero => rfl
    | succ n => simpa [setByte, byteAt] using ih n

theorem byteAt_setByte_ne (buf : List (Option Nat)) (i b j : Nat) (hne : j ≠ i) :
    byteAt (setByte buf i b) j = byteAt buf j := by
  induction buf generalizing i j with
  | nil =>
    induction i generalizing j with
    | zero =>
      cases j with
      | zero => exact absurd rfl hne
      | succ m => simp [setByte, byteAt]
    | succ n ih =>
      cases j with
      | zero => simp [setByte, byteAt]
      | succ m =>
        simp only [setByte, byteAt]
        exact ih m (by omega)
  | cons h t ih =>
    cases i with
    | zero =>
      cases j with
      | zero => exact absurd rfl hne
      | succ m => simp [setByte, byteAt]
    | succ n =>
      cases j with
      | zero => simp [setByte, byteAt]
      | succ m =>
        simp only [setByte, byteAt]
        exact ih n m (by omega)

theorem length_setByte (buf : List (Option Nat)) (i b : Nat) :
    (setByte buf i b).length = max buf.length (i + 1) := by
  induction buf generalizing i with
  | nil =>
    induction i with
    | zero => rfl
    | succ n ih => simp only [setByte, List.length_cons, List.length_nil, ih]; omega
  | cons h t ih =>
    cases i with
    | zero => simp [setByte]
    | succ n => simp only [setByte, List.length_cons, ih n]; omega

theorem byteAt_setBytes_lt (bs : List Nat) (buf : List (Option Nat)) (p j : Nat)
    (hj : j < p) : byteAt (setBytes buf p bs) j = byteAt buf j := by
  induction bs generalizing buf p with
  | nil => rfl
  | cons b bs ih =>
    simp only [setBytes]
    rw [ih (setByte buf p b) (p + 1) (by omega), byteAt_setByte_ne _ _ _ _ (by omega)]

theorem byteAt_setBytes_ge (bs : List Nat) (buf : List (Option Nat)) (p j : Nat)
    (hj : p + bs.length ≤ j) : byteAt (setBytes buf p bs) j = byteAt buf j := by
  induction bs generalizing buf p with
  | nil => rfl
  | cons b bs ih =>
    simp only [List.length_cons] at hj
    simp only [setBytes]
    rw [ih (setByte buf p b) (p + 1) (by omega),
      byteAt_setByte_ne _ _ _ _ (by omega)]

theorem byteAt_setBytes_in (bs : List Nat) (buf : List (Option Nat)) (p i : Nat)
    (hi : i < bs.length) : byteAt (setBytes buf p bs) (p + i) = bs[i]? := by
  induction bs generalizing buf p i with
  | nil => simp at hi
  | cons b bs ih =>
    cases i with
    | zero =>
      simp only [setBytes, List.getElem?_cons_zero, Nat.add_zero]
      rw [byteAt_setBytes_lt bs _ (p + 1) p (by omega), byteAt_setByte_self]
    | succ n =>
      simp only [setBytes, List.getElem?_cons_succ]
      have := ih (setByte buf p b) (p + 1) n (by simp at hi; omega)
      rw [← this]
      congr 1
      omega

theorem length_setBytes (bs : List Nat) (buf : List (Option Nat)) (p : Nat) :
    (setBytes buf p bs).length = if bs.length = 0 then buf.length
      else max buf.length (p + bs.length) := by
  induction bs generalizing buf p with
  | nil => simp [setBytes]
  | cons b bs ih =>
    simp only [setBytes, List.length_cons]
    rw [ih (setByte buf p b) (p + 1)]
    by_cases h : bs.length = 0 <;> simp [h, length_setByte] <;> omega

theorem readBytes_setBytes (bs : List Nat) (buf : List (Option Nat)) (p : Nat) :
    readBytes (setBytes buf p bs) p bs.length = bs.map some := by
  apply List.ext_getElem?
  intro i
  by_cases hi : i < bs.length
  · rw [readBytes]
    rw [List.getElem?_map, List.getElem?_map, List.getElem?_range hi]
    simp only [Option.map_some']
    rw [byteAt_setBytes_in bs buf p i hi]
    cases hg : bs[i]? with
    | none => rw [List.getElem?_eq_none_iff] at hg; omega
    | some v => simp
  · rw [readBytes]
    rw [List.getElem?_map, List.getElem?_map]
    rw [List.getElem?_eq_none (by simpa [List.length_range] using hi),
      List.getElem?_eq_none (by simpa using hi)]
    rfl

/-! ## Write, pad, align lemmas -/

theorem write_ok {s : SinkState} {bytes : List Nat} {u : Unit} {s' : SinkState}
    (h : write s bytes = (.ok u, s')) :
    s'.buf = setBytes s.buf s.pos bytes ∧ s'.pos = s.pos + bytes.length ∧
      s'.cap = s.cap := by
  unfold write at h
  split at h
  · rw [Prod.mk.injEq] at h
    rw [← h.2]
    exact ⟨rfl, rfl, rfl⟩
  · rw [Prod.mk.injEq] at h
    cases h.1

theorem write_error {s : SinkState} {bytes : List Nat} {e : SerError} {s' : SinkState}
    (h : write s bytes = (.error e, s')) : s' = s ∧ e = .ioFailure := by
  unfold write at h
  split at h
  · rw [Prod.mk.injEq] at h
    cases h.1
  · rw [Prod.mk.injEq] at h
    obtain ⟨h1, h2⟩ := h
    injection h1 with h1
    exact ⟨h2.symm, h1.symm⟩

theorem seek_ok {s : SinkState} {p : Nat} {u : Unit} {s' : SinkState}
    (h : seek s p = (.ok u, s')) : s' = { s with pos := p } := by
  unfold seek at h
  split at h
  · rw [Prod.mk.injEq] at h
    exact h.2.symm
  · rw [Prod.mk.injEq] at h
    cases h.1

theorem land_pow_two_mod (x k : Nat) : Nat.land x (2 ^ k - 1) = x % 2 ^ k :=
  Nat.and_pow_two_sub_one_eq_mod x k

theorem pad_ok : ∀ (n : Nat) (s : SinkState) (u : Unit) (s' : SinkState),
    pad s n = (.ok u, s') →
    s'.pos = s.pos + n ∧ s'.cap = s.cap ∧
      (∀ i, i < n → byteAt s'.buf (s.pos + i) = some 0) ∧
      (∀ j, j < s.pos ∨ s.pos + n ≤ j → byteAt s'.buf j = byteAt s.buf j) ∧
      s'.buf.length = if n = 0 then s.buf.length else max s.buf.length (s.pos + n) := by
  intro n
  induction n using Nat.strong_induction_on with
  | _ n ih =>
    intro s u s' h
    rw [pad] at h
    by_cases hn : 0 < n
    · rw [dif_pos hn] at h
      simp only [ZEROES_LEN] at h
      have hlen1 : 1 ≤ Nat.min 16 n := Nat.le_min.mpr ⟨by omega, hn⟩
      have hlenn : Nat.min 16 n ≤ n := Nat.min_le_right _ _
      cases hw : write s (List.replicate (Nat.min 16 n) 0) with
      | mk res s1 =>
        cases res with
        | error e => rw [hw] at h; cases h
        | ok v =>
          rw [hw] at h
          obtain ⟨hbuf1, hpos1, hcap1⟩ := write_ok hw
          rw [List.length_replicate] at hpos1
          have := ih (n - Nat.min 16 n) (by omega) s1 u s' h
          obtain ⟨hp, hc, hz, hu, hl⟩ := this
          refine ⟨by omega, by rw [hc, hcap1], ?_, ?_, ?_⟩
          · intro i hi
            by_cases hilen : i < Nat.min 16 n
            · have := hu (s.pos + i) (by omega)
              rw [this, hbuf1, byteAt_setBytes_in _ _ _ i (by simpa using hilen)]
              simp [hilen]
            · have := hz (i - Nat.min 16 n) (by omega)
              rw [show s1.pos + (i - Nat.min 16 n) = s.pos + i by omega] at this
              exact this
          · intro j hj
            have := hu j (by omega)
            rw [this, hbuf1]
            rcases hj with hj | hj
            · exact byteAt_setBytes_lt _ _ _ _ hj
            · exact byteAt_setBytes_ge _ _ _ _ (by simp; omega)
          · rw [hl, hbuf1, length_setBytes]
            simp only [List.length_replicate]
            have h16 : ¬(Nat.min 16 n = 0) := by omega
            rw [if_neg h16]
            by_cases hrest : n - Nat.min 16 n = 0
            · rw [if_pos hrest, if_neg (by omega)]
              congr 1
              omega
            · rw [if_neg hrest, if_neg (by omega)]
              omega
    · rw [dif_neg hn] at h
      rw [Prod.mk.injEq] at h
      rw [← h.2]
      refine ⟨by omega, rfl, by omega, fun j _ => rfl, by rw [if_pos (by omega)]⟩

theorem align_ok {s : SinkState} {a p : Nat} {s' : SinkState}
    (h : align s a = (.ok p, s')) (hpow : ∃ k, a = 2 ^ k) :
    p = s'.pos ∧ s'.pos % a = 0 ∧ s.pos ≤ s'.pos ∧ s'.pos ≤ s.pos + (a - 1) ∧
      s'.cap = s.cap ∧
      (∀ j, j < s.pos → byteAt s'.buf j = byteAt s.buf j) ∧
      (∀ i, s.pos ≤ i → i < s'.pos → byteAt s'.buf i = some 0) ∧
      s'.buf.length = if s'.pos = s.pos then s.buf.length
        else max s.buf.length s'.pos := by
  obtain ⟨k, rfl⟩ := hpow
  have ha1 : 0 < 2 ^ k := Nat.pos_pow_of_pos k (by omega)
  have hoff : Nat.land s.pos (2 ^ k - 1) = s.pos % 2 ^ k := land_pow_two_mod _ _
  have hmlt : s.pos % 2 ^ k < 2 ^ k := Nat.mod_lt _ ha1
  unfold align at h
  rw [hoff] at h
  by_cases hne : s.pos % 2 ^ k ≠ 0
  · rw [if_pos hne] at h
    cases hpad : pad s (2 ^ k - s.pos % 2 ^ k) with
    | mk res s1 =>
      cases res with
      | error e => rw [hpad] at h; cases h
      | ok v =>
        rw [hpad] at h
        rw [Prod.mk.injEq] at h
        obtain ⟨hp, hs⟩ := h
        injection hp with hp
        subst hs
        obtain ⟨hpos, hcap, hz, hu, hl⟩ := pad_ok _ _ _ _ hpad
        have hdm := Nat.div_add_mod s.pos (2 ^ k)
        have hmul : 2 ^ k * (s.pos / 2 ^ k + 1) = 2 ^ k * (s.pos / 2 ^ k) + 2 ^ k :=
          Nat.mul_succ _ _
        have heq : s.pos + (2 ^ k - s.pos % 2 ^ k) = 2 ^ k * (s.pos / 2 ^ k + 1) := by
          omega
        refine ⟨hp.symm, ?_, by omega, by omega, hcap, ?_, ?_, ?_⟩
        · rw [hpos, heq, Nat.mul_mod_right]
        · intro j hj
          exact hu j (Or.inl hj)
        · intro i hi1 hi2
          have := hz (i - s.pos) (by omega)
          rwa [show s.pos + (i - s.pos) = i by omega] at this
        · rw [hl, if_neg (by omega), if_neg (by omega), hpos]
  · rw [if_neg hne] at h
    rw [Prod.mk.injEq] at h
    obtain ⟨hp, hs⟩ := h
    injection hp with hp
    subst hs
    push_neg at hne
    exact ⟨hp.symm, hne, le_refl _, by omega, rfl, fun j _ => rfl, fun i h1 h2 => by omega,
      by rw [if_pos rfl]⟩

/-! ## Inversion lemmas for the serializer entry points -/

theorem resolve_aligned_ok {Res : Type} {A : ArchType Res} {r : Res} {s : SinkState}
    {p : Nat} {s' : SinkState} (h : resolve_aligned A r s = (.ok p, s')) :
    p = s.pos ∧ s'.buf = setBytes s.buf s.pos (A.resolve s.pos r) ∧
      s'.pos = s.pos + A.size ∧ s'.cap = s.cap ∧
      readBytes s'.buf s.pos A.size = (A.resolve s.pos r).map some := by
  unfold resolve_aligned at h
  cases hw : write s (A.resolve s.pos r) with
  | mk res t =>
    cases res with
    | error e => rw [hw] at h; cases h
    | ok v =>
      rw [hw] at h
      rw [Prod.mk.injEq] at h
      obtain ⟨h1, h2⟩ := h
      injection h1 with h1
      subst h2
      obtain ⟨hbuf, hpos, hcap⟩ := write_ok hw
      refine ⟨h1.symm, hbuf, by rw [hpos, A.resolve_len], hcap, ?_⟩
      rw [hbuf, ← A.resolve_len s.pos r, readBytes_setBytes]

theorem resolve_aligned_pos {Res : Type} {A : ArchType Res} {r : Res} {s : SinkState}
    {p : Nat} {s' : SinkState} (h : resolve_aligned A r s = (.ok p, s')) : p = s.pos :=
  (resolve_aligned_ok h).1

theorem resolve_unsized_aligned_ok {MRes : Type} {U : UnsizedType MRes} {tgt : Nat}
    {m : MRes} {s : SinkState} {p : Nat} {s' : SinkState}
    (h : resolve_unsized_aligned U tgt m s = (.ok p, s')) :
    p = s.pos ∧ s'.buf = setBytes s.buf s.pos (U.resolve_unsized s.pos tgt m) ∧
      s'.pos = s.pos + U.relSize ∧ s'.cap = s.cap ∧
      readBytes s'.buf s.pos U.relSize = (U.resolve_unsized s.pos tgt m).map some := by
  unfold resolve_unsized_aligned at h
  cases hw : write s (U.resolve_unsized s.pos tgt m) with
  | mk res t =>
    cases res with
    | error e => rw [hw] at h; cases h
    | ok v =>
      rw [hw] at h
      rw [Prod.mk.injEq] at h
      obtain ⟨h1, h2⟩ := h
      injection h1 with h1
      subst h2
      obtain ⟨hbuf, hpos, hcap⟩ := write_ok hw
      refine ⟨h1.symm, hbuf, by rw [hpos, U.resolve_unsized_len], hcap, ?_⟩
      rw [hbuf, ← U.resolve_unsized_len s.pos tgt m, readBytes_setBytes]

theorem serialize_value_ok {Res : Type} {ser : Phase1 Res} {A : ArchType Res}
    {s : SinkState} {p : Nat} {s' : SinkState}
    (h : serialize_value ser A s = (.ok p, s')) :
    ∃ r s1 q s2, ser s = (.ok r, s1) ∧ align_for A s1 = (.ok q, s2) ∧
      resolve_aligned A r s2 = (.ok p, s') := by
  unfold serialize_value at h
  split at h
  next => cases h
  next r s1 heq1 =>
    split at h
    next => cases h
    next q s2 heq2 =>
      exact ⟨r, s1, q, s2, heq1, heq2, h⟩

theorem serialize_unsized_value_ok {MRes : Type} {serU : Phase1 Nat}
    {serMeta : Phase1 MRes} {U : UnsizedType MRes} {s : SinkState} {p : Nat}
    {s' : SinkState} (h : serialize_unsized_value serU serMeta U s = (.ok p, s')) :
    ∃ tgt s1 m s2 q s3, serU s = (.ok tgt, s1) ∧ serMeta s1 = (.ok m, s2) ∧
      align s2 U.relAlignment = (.ok q, s3) ∧
      resolve_unsized_aligned U tgt m s3 = (.ok p, s') := by
  unfold serialize_unsized_value at h
  split at h
  next => cases h
  next tgt s1 heq1 =>
    split at h
    next => cases h
    next m s2 heq2 =>
      split at h
      next => cases h
      next q s3 heq3 =>
        exact ⟨tgt, s1, m, s2, q, s3, heq1, heq2, heq3, h⟩

theorem archive_root_ok {Res : Type} {ser : Phase1 Res} {A : ArchType Res}
    {s : SinkState} {p : Nat} {s' : SinkState}
    (h : archive_root ser A s = (.ok p, s')) :
    ∃ q s1 r s3 p2, align_for A s = (.ok q, s1) ∧ p = s1.pos ∧
      ser { s1 with pos := p + A.size } = (.ok r, s3) ∧
      resolve_aligned A r { s3 with pos := p } = (.ok p2, s') := by
  unfold archive_root at h
  split at h
  next => cases h
  next q s1 heq1 =>
    rcases hs1 : seek s1 (s1.pos + A.size) with ⟨resS1, s2⟩
    cases resS1 with
    | error e =>
      simp only [hs1] at h
      cases h
    | ok u =>
      simp only [hs1] at h
      have hs2 : s2 = { s1 with pos := s1.pos + A.size } := seek_ok hs1
      subst hs2
      split at h
      next => cases h
      next r s3 heq2 =>
        rcases hs3 : seek s3 s1.pos with ⟨resS2, s4⟩
        cases resS2 with
        | error e =>
          simp only [hs3] at h
          cases h
        | ok u2 =>
          simp only [hs3] at h
          have hs4 : s4 = { s3 with pos := s1.pos } := seek_ok hs3
          subst hs4
          split at h
          next => cases h
          next p2 s5 heq3 =>
            rw [Prod.mk.injEq] at h
            obtain ⟨hp, hs⟩ := h
            injection hp with hp
            subst hs
            subst hp
            exact ⟨q, s1, r, s3, p2, heq1, rfl, heq2, heq3⟩

theorem archive_ref_root_ok {MRes : Type} {serU : Phase1 Nat} {serMeta : Phase1 MRes}
    {U : UnsizedType MRes} {s : SinkState} {p : Nat} {s' : SinkState}
    (h : archive_ref_root serU serMeta U s = (.ok p, s')) :
    ∃ q s1 tgt s3 m s4, align s U.relAlignment = (.ok q, s1) ∧
      serU { s1 with pos := s1.pos + U.relSize } = (.ok tgt, s3) ∧
      serMeta s3 = (.ok m, s4) ∧
      resolve_unsized_aligned U tgt m { s4 with pos := s1.pos } = (.ok p, s') ∧
      p = s1.pos := by
  unfold archive_ref_root at h
  split at h
  next => cases h
  next q s1 heq1 =>
    rcases hs1 : seek s1 (s1.pos + U.relSize) with ⟨resS1, s2⟩
    cases resS1 with
    | error e =>
      simp only [hs1] at h
      cases h
    | ok u =>
      simp only [hs1] at h
      have hs2 : s2 = { s1 with pos := s1.pos + U.relSize } := seek_ok hs1
      subst hs2
      split at h
      next => cases h
      next tgt s3 heq2 =>
        split at h
        next => cases h
        next m s4 heq3 =>
          rcases hs3 : seek s4 s1.pos with ⟨resS2, s5⟩
          cases resS2 with
          | error e =>
            simp only [hs3] at h
            cases h
          | ok u2 =>
            simp only [hs3] at h
            have hs5 : s5 = { s4 with pos := s1.pos } := seek_ok hs3
            subst hs5
            have hp : p = s1.pos := (resolve_unsized_aligned_ok h).1
            exact ⟨q, s1, tgt, s3, m, s4, heq1, heq2, heq3, h, hp⟩

/-- The debug assertion of `resolve_aligned` holds at any state whose
position is a multiple of the archived type's alignment. -/
theorem assert_of_mod {Res : Type} (A : ArchType Res) (p : Nat)
    (hp : p % A.alignment = 0) (b : List (Option Nat)) (c : Option Nat) :
    resolveAlignedAssert A ⟨b, p, c⟩ = true := by
  obtain ⟨k, hk⟩ := A.align_pow
  simp only [resolveAlignedAssert, hk] at hp ⊢
  rw [land_pow_two_mod, hp]
  rfl

/-- Unsized analogue of `assert_of_mod`. -/
theorem assert_unsized_of_mod {MRes : Type} (U : UnsizedType MRes) (p : Nat)
    (hp : p % U.relAlignment = 0) (b : List (Option Nat)) (c : Option Nat) :
    resolveUnsizedAssert U ⟨b, p, c⟩ = true := by
  obtain ⟨k, hk⟩ := U.relAlign_pow
  simp only [resolveUnsizedAssert, hk] at hp ⊢
  rw [land_pow_two_mod, hp]
  rfl

/-! ## Claim theorems -/

/-- C1: for every sized value, `serialize_value` first calls the value's
`serialize` (phase 1, which may write dependents), then aligns the sink for
the archived type, then appends the bytes of `resolve(current_position,
resolver)` verbatim, and returns exactly the position at which those
archived bytes begin. -/
theorem C1_serialize_value_protocol (Res : Type) (ser : Phase1 Res)
    (A : ArchType Res) (s s' : SinkState) (p : Nat)
    (h : serialize_value ser A s = (.ok p, s')) :
    ∃ r s1 q s2, ser s = (.ok r, s1) ∧ align_for A s1 = (.ok q, s2) ∧
      p = s2.pos ∧
      s'.buf = setBytes s2.buf p (A.resolve p r) ∧
      readBytes s'.buf p A.size = (A.resolve p r).map some ∧
      s'.pos = p + A.size := by
  obtain ⟨r, s1, q, s2, h1, h2, h3⟩ := serialize_value_ok h
  obtain ⟨hp, hbuf, hpos, hcap, hread⟩ := resolve_aligned_ok h3
  subst hp
  exact ⟨r, s1, q, s2, h1, h2, rfl, hbuf, hread, hpos⟩

/-- Witness for C1: a concrete `u32`-like value archived into a fresh sink. -/
theorem C1_witness :
    ∃ r s1 q s2, serConst 7 emptySink = (.ok r, s1) ∧
      align_for natArch s1 = (.ok q, s2) ∧ (0 : Nat) = s2.pos ∧
      (⟨[some 7, some 0, some 0, some 0], 4, none⟩ : SinkState).buf =
        setBytes s2.buf 0 (natArch.resolve 0 r) ∧
      readBytes (⟨[some 7, some 0, some 0, some 0], 4, none⟩ : SinkState).buf 0
          natArch.size = (natArch.resolve 0 r).map some ∧
      (⟨[some 7, some 0, some 0, some 0], 4, none⟩ : SinkState).pos =
        0 + natArch.size :=
  C1_serialize_value_protocol Nat (serConst 7) natArch emptySink
    ⟨[some 7, some 0, some 0, some 0], 4, none⟩ 0 rfl

/-- C2: the header bytes `archive_root` leaves at `pos` via the
reserve/seek-forward/serialize-dependents/seek-back/patch sequence are
identical to the directly constructed header bytes `resolve(pos, resolver)`
for the resolver produced by phase 1. -/
theorem C2_forward_patch_transparency (Res : Type) (ser : Phase1 Res)
    (A : ArchType Res) (s s' : SinkState) (p : Nat)
    (h : archive_root ser A s = (.ok p, s')) :
    ∃ q s1 r s3, align_for A s = (.ok q, s1) ∧ p = s1.pos ∧
      ser { s1 with pos := p + A.size } = (.ok r, s3) ∧
      readBytes s'.buf p A.size = (directHeaderBytes A p r).map some := by
  obtain ⟨q, s1, r, s3, p2, h1, hp, h2, h3⟩ := archive_root_ok h
  obtain ⟨hp2, hbuf, hpos, hcap, hread⟩ := resolve_aligned_ok h3
  exact ⟨q, s1, r, s3, h1, hp, h2, hread⟩

/-- Witness for C2: a root with 3 dependent bytes written during phase 1. -/
theorem C2_witness :
    ∃ q s1 r s3, align_for natArch emptySink = (.ok q, s1) ∧ (0 : Nat) = s1.pos ∧
      serWrite [1, 2, 3] { s1 with pos := 0 + natArch.size } = (.ok r, s3) ∧
      readBytes (⟨[some 4, some 0, some 0, some 0, some 1, some 2, some 3], 4,
          none⟩ : SinkState).buf 0 natArch.size =
        (directHeaderBytes natArch 0 r).map some :=
  C2_forward_patch_transparency Nat (serWrite [1, 2, 3]) natArch emptySink
    ⟨[some 4, some 0, some 0, some 0, some 1, some 2, some 3], 4, none⟩ 0 rfl

/-- C6: `pad(n)` appends exactly `n` zero bytes: the position advances by
`n` and every appended byte is zero, never leaking prior buffer content. -/
theorem C6_pad_appends_zeroes (s : SinkState) (n : Nat) (u : Unit) (s' : SinkState)
    (h : pad s n = (.ok u, s')) :
    s'.pos = s.pos + n ∧ ∀ i, i < n → byteAt s'.buf (s.pos + i) = some 0 := by
  obtain ⟨h1, _, h3, _, _⟩ := pad_ok n s u s' h
  exact ⟨h1, h3⟩

/-- Witness for C6: padding a fresh sink by 5 bytes. -/
theorem C6_witness :
    (⟨[some 0, some 0, some 0, some 0, some 0], 5, none⟩ : SinkState).pos = 0 + 5 ∧
      byteAt (⟨[some 0, some 0, some 0, some 0, some 0], 5, none⟩ : SinkState).buf
        (0 + 3) = some 0 := by
  have h : pad emptySink 5 =
      (.ok (), ⟨[some 0, some 0, some 0, some 0, some 0], 5, none⟩) := by
    rw [pad]
    norm_num [ZEROES_LEN, write, capAllows, emptySink, setBytes, setByte]
    rw [pad]
    norm_num
  exact ⟨(C6_pad_appends_zeroes emptySink 5 () _ h).1,
    (C6_pad_appends_zeroes emptySink 5 () _ h).2 3 (by norm_num)⟩

/-- C7: every archived header's start offset — the position returned by
`serialize_value`, `serialize_unsized_value`, `archive_root` and
`archive_ref_root` — is a multiple of the archived type's required
alignment, so the debug assertion in `resolve_aligned` (whose state at that
step has position `p`) is unreachable from those entry points; a sink
deliberately misaligned before the header write trips the debug check. -/
theorem C7_headers_are_aligned :
    (∀ (Res : Type) (ser : Phase1 Res) (A : ArchType Res) (s s' : SinkState) (p : Nat),
      serialize_value ser A s = (.ok p, s') →
        p % A.alignment = 0 ∧
        ∀ b c, resolveAlignedAssert A ⟨b, p, c⟩ = true) ∧
    (∀ (MRes : Type) (serU : Phase1 Nat) (serMeta : Phase1 MRes) (U : UnsizedType MRes)
        (s s' : SinkState) (p : Nat),
      serialize_unsized_value serU serMeta U s = (.ok p, s') →
        p % U.relAlignment = 0 ∧
        ∀ b c, resolveUnsizedAssert U ⟨b, p, c⟩ = true) ∧
    (∀ (Res : Type) (ser : Phase1 Res) (A : ArchType Res) (s s' : SinkState) (p : Nat),
      archive_root ser A s = (.ok p, s') →
        p % A.alignment = 0 ∧
        ∀ b c, resolveAlignedAssert A ⟨b, p, c⟩ = true) ∧
    (∀ (MRes : Type) (serU : Phase1 Nat) (serMeta : Phase1 MRes) (U : UnsizedType MRes)
        (s s' : SinkState) (p : Nat),
      archive_ref_root serU serMeta U s = (.ok p, s') →
        p % U.relAlignment = 0 ∧
        ∀ b c, resolveUnsizedAssert U ⟨b, p, c⟩ = true) ∧
    resolveAlignedAssert natArch ⟨[], 1, none⟩ = false := by
  refine ⟨?_, ?_, ?_, ?_, by decide⟩
  · intro Res ser A s s' p h
    obtain ⟨r, s1, q, s2, h1, h2, h3⟩ := serialize_value_ok h
    obtain ⟨hq, hmod, _⟩ := align_ok h2 A.align_pow
    have hp : p = s2.pos := resolve_aligned_pos h3
    subst hp
    exact ⟨hmod, assert_of_mod A _ hmod⟩
  · intro MRes serU serMeta U s s' p h
    obtain ⟨tgt, s1, m, s2, q, s3, h1, h2, h3, h4⟩ := serialize_unsized_value_ok h
    obtain ⟨hq, hmod, _⟩ := align_ok h3 U.relAlign_pow
    have hp : p = s3.pos := (resolve_unsized_aligned_ok h4).1
    subst hp
    exact ⟨hmod, assert_unsized_of_mod U _ hmod⟩
  · intro Res ser A s s' p h
    obtain ⟨q, s1, r, s3, p2, h1, hp, h2, h3⟩ := archive_root_ok h
    obtain ⟨hq, hmod, _⟩ := align_ok h1 A.align_pow
    subst hp
    exact ⟨hmod, assert_of_mod A _ hmod⟩
  · intro MRes serU serMeta U s s' p h
    obtain ⟨q, s1, tgt, s3, m, s4, h1, h2, h3, h4, hp⟩ := archive_ref_root_ok h
    obtain ⟨hq, hmod, _⟩ := align_ok h1 U.relAlign_pow
    subst hp
    exact ⟨hmod, assert_unsized_of_mod U _ hmod⟩

/-- Witness for C7: the `serialize_value` clause at a concrete input, plus
the concrete run itself. -/
theorem C7_witness :
    (0 : Nat) % natArch.alignment = 0 ∧
      ∀ b c, resolveAlignedAssert natArch ⟨b, 0, c⟩ = true :=
  C7_headers_are_aligned.1 Nat (serConst 7) natArch emptySink
    ⟨[some 7, some 0, some 0, some 0], 4, none⟩ 0 rfl

/-- The instrumentation is faithful: the run component of
`archive_root_traced` is `archive_root`. -/
theorem archive_root_traced_fst (ser : Phase1 Res) (A : ArchType Res) (s : SinkState) :
    (archive_root_traced ser A s).1 = archive_root ser A s := by
  rcases h1 : align_for A s with ⟨res1, s1⟩
  cases res1 with
  | error e => simp only [archive_root_traced, archive_root, h1]
  | ok q =>
    simp only [archive_root_traced, archive_root, h1]
    rcases hs1 : seek s1 (s1.pos + A.size) with ⟨resS1, s2⟩
    cases resS1 with
    | error e => simp only [hs1]
    | ok u =>
      simp only [hs1]
      rcases h2 : ser s2 with ⟨res2, s3⟩
      cases res2 with
      | error e => simp only [h2]
      | ok r =>
        simp only [h2]
        rcases hs2 : seek s3 s1.pos with ⟨resS2, s4⟩
        cases resS2 with
        | error e => simp only [hs2]
        | ok u2 =>
          simp only [hs2]
          rcases h3 : resolve_aligned A r s4 with ⟨res3, s5⟩
          cases res3 with
          | error e => simp only [h3]
          | ok p2 => simp only [h3]

theorem phaseOneOk_serWrite (bs : List Nat) : PhaseOneOk (serWrite bs) := by
  intro s r s' h hlen
  unfold serWrite at h
  split at h
  next => cases h
  next u t heq =>
    rw [Prod.mk.injEq] at h
    obtain ⟨h1, h2⟩ := h
    subst h2
    obtain ⟨hbuf, hpos, hcap⟩ := write_ok heq
    have hlength := length_setBytes bs s.buf s.pos
    rw [← hbuf] at hlength
    by_cases hn : bs.length = 0
    · rw [if_pos hn] at hlength
      refine ⟨by omega, by omega, by omega, ?_, ?_⟩
      · intro i hi
        rw [hbuf, byteAt_setBytes_lt _ _ _ _ hi]
      · intro i hi1 hi2
        omega
    · rw [if_neg hn] at hlength
      refine ⟨by omega, by omega, by omega, ?_, ?_⟩
      · intro i hi
        rw [hbuf, byteAt_setBytes_lt _ _ _ _ hi]
      · intro i hi1 hi2
        have hlt : i - s.pos < bs.length := by omega
        rw [hbuf, show i = s.pos + (i - s.pos) by omega,
          byteAt_setBytes_in _ _ _ _ hlt, List.getElem?_eq_getElem hlt]
        simp

/-- The identity phase-1 function (a value with no dependents) is
well-behaved. -/
theorem phaseOneOk_serConst (r0 : Nat) : PhaseOneOk (serConst r0) := by
  intro s r s' h hlen
  unfold serConst at h
  rw [Prod.mk.injEq] at h
  obtain ⟨h1, h2⟩ := h
  subst h2
  exact ⟨le_refl _, hlen, le_refl _, fun i _ => rfl, fun i hi1 hi2 => by omega⟩

/-- Counterexample to C8 as stated: in this concrete successful run of
`archive_root`, the header-reservation seek is a forward seek from position
0 to position 4 performed while positions 0..3 are still never-initialized
— it is not a backward seek to a previously-visited position, and the bytes
it skips have not been written or padded at that moment. -/
theorem C8_counterexample :
    archive_root_traced (serWrite [1, 2, 3]) natArch emptySink =
      ((.ok 0, ⟨[some 4, some 0, some 0, some 0, some 1, some 2, some 3], 4, none⟩),
        [(emptySink, 4),
         (⟨[none, none, none, none, some 1, some 2, some 3], 7, none⟩, 0)]) ∧
    emptySink.pos = 0 ∧ emptySink.buf.length = 0 ∧
    byteAt emptySink.buf 0 = none ∧ byteAt emptySink.buf 3 = none := by
  exact ⟨rfl, rfl, rfl, rfl, rfl⟩

/-- C8 amended: the reservation seek of `archive_root` and
`archive_ref_root` does move forward over the not-yet-written reserved
header region, but that region is exactly the header slot and is
overwritten by the final resolve step before the call returns; so, for
well-behaved phase-1 functions and a sink whose bytes are all initialized
and whose cursor is at the buffer end, a successful root-archiving call
leaves no never-initialized byte below the final buffer end (and the final
cursor lies within it). -/
theorem C8_amended_no_uninitialized_bytes :
    (∀ (Res : Type) (ser : Phase1 Res) (A : ArchType Res) (s s' : SinkState) (p : Nat),
      PhaseOneOk ser →
      s.pos = s.buf.length → (∀ i, i < s.buf.length → byteAt s.buf i ≠ none) →
      archive_root ser A s = (.ok p, s') →
      (∀ i, i < s'.buf.length → byteAt s'.buf i ≠ none) ∧
        p + A.size ≤ s'.buf.length ∧ s'.pos ≤ s'.buf.length) ∧
    (∀ (MRes : Type) (serU : Phase1 Nat) (serMeta : Phase1 MRes) (U : UnsizedType MRes)
        (s s' : SinkState) (p : Nat),
      PhaseOneOk serU → PhaseOneOk serMeta →
      s.pos = s.buf.length → (∀ i, i < s.buf.length → byteAt s.buf i ≠ none) →
      archive_ref_root serU serMeta U s = (.ok p, s') →
      (∀ i, i < s'.buf.length → byteAt s'.buf i ≠ none) ∧
        p + U.relSize ≤ s'.buf.length ∧ s'.pos ≤ s'.buf.length) := by
  constructor
  · intro Res ser A s s' p hser hcont hinit h
    obtain ⟨q, s1, r, s3, p2, h1, hp, h2, h3⟩ := archive_root_ok h
    subst hp
    obtain ⟨hq, hmod, hge, hbd, hcap1, hun1, hz1, hl1⟩ := align_ok h1 A.align_pow
    have hs1len : s1.buf.length = s1.pos := by
      by_cases hsame : s1.pos = s.pos
      · rw [hl1, if_pos hsame, ← hcont, hsame]
      · rw [hl1, if_neg hsame]
        omega
    have hs1init : ∀ i, i < s1.buf.length → byteAt s1.buf i ≠ none := by
      intro i hi
      by_cases hlo : i < s.pos
      · rw [hun1 i hlo]
        exact hinit i (by omega)
      · exact fun hcontra => by
          have := hz1 i (by omega) (by omega)
          rw [this] at hcontra
          cases hcontra
    obtain ⟨ha1, ha2, ha3, ha4, ha5⟩ :=
      hser { s1 with pos := s1.pos + A.size } r s3 h2 (by simp; omega)
    simp only at ha1 ha2 ha3 ha4 ha5
    obtain ⟨hp2, hbuf, hpos, hcap, hread⟩ := resolve_aligned_ok h3
    simp only at hbuf hpos
    have hreslen : (A.resolve s1.pos r).length = A.size := A.resolve_len _ _
    have hlN := length_setBytes (A.resolve s1.pos r) s3.buf s1.pos
    rw [← hbuf, hreslen] at hlN
    have hmono : s1.buf.length ≤ s3.buf.length := ha3
    refine ⟨?_, ?_, ?_⟩
    · intro i hi
      by_cases hcase1 : i < s1.pos
      · rw [hbuf, byteAt_setBytes_lt _ _ _ _ hcase1, ha4 i (by omega)]
        exact hs1init i (by omega)
      · by_cases hcase2 : i < s1.pos + A.size
        · have hjlt : i - s1.pos < (A.resolve s1.pos r).length := by omega
          rw [hbuf, show i = s1.pos + (i - s1.pos) by omega,
            byteAt_setBytes_in _ _ _ _ hjlt, List.getElem?_eq_getElem hjlt]
          simp
        · have hge2 : s1.pos + (A.resolve s1.pos r).length ≤ i := by omega
          rw [hbuf, byteAt_setBytes_ge _ _ _ _ hge2]
          have hiw : i < s3.buf.length := by
            by_cases hsz : A.size = 0
            · rw [if_pos (by omega)] at hlN
              omega
            · rw [if_neg (by omega)] at hlN
              omega
          exact ha5 i (by omega) (by omega)
    · by_cases hsz : A.size = 0
      · rw [if_pos (by omega)] at hlN
        omega
      · rw [if_neg (by omega)] at hlN
        omega
    · rw [hpos]
      by_cases hsz : A.size = 0
      · rw [if_pos (by omega)] at hlN
        omega
      · rw [if_neg (by omega)] at hlN
        omega
  · intro MRes serU serMeta U s s' p hserU hserM hcont hinit h
    obtain ⟨q, s1, tgt, s3, m, s4, h1, h2, h3, h4, hp⟩ := archive_ref_root_ok h
    obtain ⟨hq, hmod, hge, hbd, hcap1, hun1, hz1, hl1⟩ := align_ok h1 U.relAlign_pow
    have hs1len : s1.buf.length = s1.pos := by
      by_cases hsame : s1.pos = s.pos
      · rw [hl1, if_pos hsame, ← hcont, hsame]
      · rw [hl1, if_neg hsame]
        omega
    have hs1init : ∀ i, i < s1.buf.length → byteAt s1.buf i ≠ none := by
      intro i hi
      by_cases hlo : i < s.pos
      · rw [hun1 i hlo]
        exact hinit i (by omega)
      · exact fun hcontra => by
          have := hz1 i (by omega) (by omega)
          rw [this] at hcontra
          cases hcontra
    obtain ⟨ha1, ha2, ha3, ha4, ha5⟩ :=
      hserU { s1 with pos := s1.pos + U.relSize } tgt s3 h2 (by simp; omega)
    simp only at ha1 ha2 ha3 ha4 ha5
    obtain ⟨hb1, hb2, hb3, hb4, hb5⟩ := hserM s3 m s4 h3 ha2
    obtain ⟨hp2, hbuf, hpos, hcap, hread⟩ := resolve_unsized_aligned_ok h4
    simp only at hbuf hpos
    subst hp
    have hreslen : (U.resolve_unsized s1.pos tgt m).length = U.relSize :=
      U.resolve_unsized_len _ _ _
    have hlN := length_setBytes (U.resolve_unsized s1.pos tgt m) s4.buf s1.pos
    rw [← hbuf, hreslen] at hlN
    have hmono : s1.buf.length ≤ s4.buf.length := le_trans ha3 hb3
    have hinterm : ∀ i, s1.pos + U.relSize ≤ i → i < s4.pos → byteAt s4.buf i ≠ none := by
      intro i hi1 hi2
      by_cases hmid : i < s3.pos
      · rw [hb4 i hmid]
        exact ha5 i (by omega) hmid
      · exact hb5 i (by omega) hi2
    have hbelow : ∀ i, i < s1.pos + U.relSize → byteAt s4.buf i = byteAt s1.buf i := by
      intro i hi
      rw [hb4 i (by omega), ha4 i (by omega)]
    refine ⟨?_, ?_, ?_⟩
    · intro i hi
      by_cases hcase1 : i < s1.pos
      · rw [hbuf, byteAt_setBytes_lt _ _ _ _ hcase1, hbelow i (by omega)]
        exact hs1init i (by omega)
      · by_cases hcase2 : i < s1.pos + U.relSize
        · have hjlt : i - s1.pos < (U.resolve_unsized s1.pos tgt m).length := by omega
          rw [hbuf, show i = s1.pos + (i - s1.pos) by omega,
            byteAt_setBytes_in _ _ _ _ hjlt, List.getElem?_eq_getElem hjlt]
          simp
        · have hge2 : s1.pos + (U.resolve_unsized s1.pos tgt m).length ≤ i := by omega
          rw [hbuf, byteAt_setBytes_ge _ _ _ _ hge2]
          have hiw : i < s4.buf.length := by
            by_cases hsz : U.relSize = 0
            · rw [if_pos (by omega)] at hlN
              omega
            · rw [if_neg (by omega)] at hlN
              omega
          exact hinterm i (by omega) (by omega)
    · by_cases hsz : U.relSize = 0
      · rw [if_pos (by omega)] at hlN
        omega
      · rw [if_neg (by omega)] at hlN
        omega
    · rw [hpos]
      by_cases hsz : U.relSize = 0
      · rw [if_pos (by omega)] at hlN
        omega
      · rw [if_neg (by omega)] at hlN
        omega

/-- Witness for the amended C8: a concrete root with three dependent bytes;
position 2 (inside the once-reserved header region) ends up initialized,
and the final cursor lies within the fully initialized buffer. -/
theorem C8_amended_witness :
    byteAt (⟨[some 4, some 0, some 0, some 0, some 1, some 2, some 3], 4,
        none⟩ : SinkState).buf 2 ≠ none ∧
    (⟨[some 4, some 0, some 0, some 0, some 1, some 2, some 3], 4,
        none⟩ : SinkState).pos ≤
      (⟨[some 4, some 0, some 0, some 0, some 1, some 2, some 3], 4,
        none⟩ : SinkState).buf.length := by
  have h := C8_amended_no_uninitialized_bytes.1 Nat (serWrite [1, 2, 3]) natArch
    emptySink ⟨[some 4, some 0, some 0, some 0, some 1, some 2, some 3], 4, none⟩ 0
    (phaseOneOk_serWrite [1, 2, 3]) rfl (fun i hi => by cases hi) rfl
  exact ⟨h.1 2 (by norm_num), h.2.2⟩

/-- C9: every phase-1 and phase-2 step of `serialize_value`,
`serialize_unsized_value`, `archive_root` and `archive_ref_root` is fallible
and short-circuits on the first failure: the operation returns an error with
sink state `t` exactly when the first failing step — a phase-1 serialize, a
metadata step, an `align`, a `seek`, or the final resolve write — returned
that error with state `t`, and no later step of the pass touched the sink
afterwards. -/
theorem C9_error_short_circuit :
    (∀ (Res : Type) (ser : Phase1 Res) (A : ArchType Res) (s t : SinkState) (e : SerError),
      serialize_value ser A s = (.error e, t) ↔
        ser s = (.error e, t) ∨
        (∃ r s1, ser s = (.ok r, s1) ∧ align_for A s1 = (.error e, t)) ∨
        (∃ r s1 q s2, ser s = (.ok r, s1) ∧ align_for A s1 = (.ok q, s2) ∧
          resolve_aligned A r s2 = (.error e, t))) ∧
    (∀ (MRes : Type) (serU : Phase1 Nat) (serMeta : Phase1 MRes) (U : UnsizedType MRes)
        (s t : SinkState) (e : SerError),
      serialize_unsized_value serU serMeta U s = (.error e, t) ↔
        serU s = (.error e, t) ∨
        (∃ tg s1, serU s = (.ok tg, s1) ∧ serMeta s1 = (.error e, t)) ∨
        (∃ tg s1 m s2, serU s = (.ok tg, s1) ∧ serMeta s1 = (.ok m, s2) ∧
          align s2 U.relAlignment = (.error e, t)) ∨
        (∃ tg s1 m s2 q s3, serU s = (.ok tg, s1) ∧ serMeta s1 = (.ok m, s2) ∧
          align s2 U.relAlignment = (.ok q, s3) ∧
          resolve_unsized_aligned U tg m s3 = (.error e, t))) ∧
    (∀ (Res : Type) (ser : Phase1 Res) (A : ArchType Res) (s t : SinkState) (e : SerError),
      archive_root ser A s = (.error e, t) ↔
        align_for A s = (.error e, t) ∨
        (∃ q s1, align_for A s = (.ok q, s1) ∧
          seek s1 (s1.pos + A.size) = (.error e, t)) ∨
        (∃ q s1 u s2, align_for A s = (.ok q, s1) ∧
          seek s1 (s1.pos + A.size) = (.ok u, s2) ∧ ser s2 = (.error e, t)) ∨
        (∃ q s1 u s2 r s3, align_for A s = (.ok q, s1) ∧
          seek s1 (s1.pos + A.size) = (.ok u, s2) ∧ ser s2 = (.ok r, s3) ∧
          seek s3 s1.pos = (.error e, t)) ∨
        (∃ q s1 u s2 r s3 u2 s4, align_for A s = (.ok q, s1) ∧
          seek s1 (s1.pos + A.size) = (.ok u, s2) ∧ ser s2 = (.ok r, s3) ∧
          seek s3 s1.pos = (.ok u2, s4) ∧
          resolve_aligned A r s4 = (.error e, t))) ∧
    (∀ (MRes : Type) (serU : Phase1 Nat) (serMeta : Phase1 MRes) (U : UnsizedType MRes)
        (s t : SinkState) (e : SerError),
      archive_ref_root serU serMeta U s = (.error e, t) ↔
        align s U.relAlignment = (.error e, t) ∨
        (∃ q s1, align s U.relAlignment = (.ok q, s1) ∧
          seek s1 (s1.pos + U.relSize) = (.error e, t)) ∨
        (∃ q s1 u s2, align s U.relAlignment = (.ok q, s1) ∧
          seek s1 (s1.pos + U.relSize) = (.ok u, s2) ∧ serU s2 = (.error e, t)) ∨
        (∃ q s1 u s2 tg s3, align s U.relAlignment = (.ok q, s1) ∧
          seek s1 (s1.pos + U.relSize) = (.ok u, s2) ∧ serU s2 = (.ok tg, s3) ∧
          serMeta s3 = (.error e, t)) ∨
        (∃ q s1 u s2 tg s3 m s4, align s U.relAlignment = (.ok q, s1) ∧
          seek s1 (s1.pos + U.relSize) = (.ok u, s2) ∧ serU s2 = (.ok tg, s3) ∧
          serMeta s3 = (.ok m, s4) ∧ seek s4 s1.pos = (.error e, t)) ∨
        (∃ q s1 u s2 tg s3 m s4 u2 s5, align s U.relAlignment = (.ok q, s1) ∧
          seek s1 (s1.pos + U.relSize) = (.ok u, s2) ∧ serU s2 = (.ok tg, s3) ∧
          serMeta s3 = (.ok m, s4) ∧ seek s4 s1.pos = (.ok u2, s5) ∧
          resolve_unsized_aligned U tg m s5 = (.error e, t))) := by
  refine ⟨?_, ?_, ?_, ?_⟩
  · intro Res ser A s t e
    constructor
    · intro h
      unfold serialize_value at h
      split at h
      next e' t' heq =>
        rw [Prod.mk.injEq] at h
        obtain ⟨h1, h2⟩ := h
        injection h1 with h1
        subst h1
        subst h2
        exact Or.inl heq
      next r s1 heq1 =>
        split at h
        next e' t' heq2 =>
          rw [Prod.mk.injEq] at h
          obtain ⟨h1, h2⟩ := h
          injection h1 with h1
          subst h1
          subst h2
          exact Or.inr (Or.inl ⟨r, s1, heq1, heq2⟩)
        next q s2 heq2 =>
          exact Or.inr (Or.inr ⟨r, s1, q, s2, heq1, heq2, h⟩)
    · rintro (h | ⟨r, s1, h1, h2⟩ | ⟨r, s1, q, s2, h1, h2, h3⟩)
      · simp only [serialize_value, h]
      · simp only [serialize_value, h1, h2]
      · simp only [serialize_value, h1, h2, h3]
  · intro MRes serU serMeta U s t e
    constructor
    · intro h
      unfold serialize_unsized_value at h
      split at h
      next e' t' heq =>
        rw [Prod.mk.injEq] at h
        obtain ⟨h1, h2⟩ := h
        injection h1 with h1
        subst h1
        subst h2
        exact Or.inl heq
      next tg s1 heq1 =>
        split at h
        next e' t' heq2 =>
          rw [Prod.mk.injEq] at h
          obtain ⟨h1, h2⟩ := h
          injection h1 with h1
          subst h1
          subst h2
          exact Or.inr (Or.inl ⟨tg, s1, heq1, heq2⟩)
        next m s2 heq2 =>
          split at h
          next e' t' heq3 =>
            rw [Prod.mk.injEq] at h
            obtain ⟨h1, h2⟩ := h
            injection h1 with h1
            subst h1
            subst h2
            exact Or.inr (Or.inr (Or.inl ⟨tg, s1, m, s2, heq1, heq2, heq3⟩))
          next q s3 heq3 =>
            exact Or.inr (Or.inr (Or.inr ⟨tg, s1, m, s2, q, s3, heq1, heq2, heq3, h⟩))
    · rintro (h | ⟨tg, s1, h1, h2⟩ | ⟨tg, s1, m, s2, h1, h2, h3⟩ |
        ⟨tg, s1, m, s2, q, s3, h1, h2, h3, h4⟩)
      · simp only [serialize_unsized_value, h]
      · simp only [serialize_unsized_value, h1, h2]
      · simp only [serialize_unsized_value, h1, h2, h3]
      · simp only [serialize_unsized_value, h1, h2, h3, h4]
  · intro Res ser A s t e
    constructor
    · intro h
      unfold archive_root at h
      split at h
      next e' t' heq =>
        rw [Prod.mk.injEq] at h
        obtain ⟨h1, h2⟩ := h
        injection h1 with h1
        subst h1
        subst h2
        exact Or.inl heq
      next q s1 heq1 =>
        rcases hs1 : seek s1 (s1.pos + A.size) with ⟨resS1, s2⟩
        cases resS1 with
        | error e2 =>
          simp only [hs1] at h
          rw [Prod.mk.injEq] at h
          obtain ⟨h1, h2⟩ := h
          injection h1 with h1
          subst h1
          subst h2
          exact Or.inr (Or.inl ⟨q, s1, heq1, hs1⟩)
        | ok u =>
          simp only [hs1] at h
          split at h
          next e' t' heq2 =>
            rw [Prod.mk.injEq] at h
            obtain ⟨h1, h2⟩ := h
            injection h1 with h1
            subst h1
            subst h2
            exact Or.inr (Or.inr (Or.inl ⟨q, s1, u, s2, heq1, hs1, heq2⟩))
          next r s3 heq2 =>
            rcases hs2 : seek s3 s1.pos with ⟨resS2, s4⟩
            cases resS2 with
            | error e2 =>
              simp only [hs2] at h
              rw [Prod.mk.injEq] at h
              obtain ⟨h1, h2⟩ := h
              injection h1 with h1
              subst h1
              subst h2
              exact Or.inr (Or.inr (Or.inr (Or.inl
                ⟨q, s1, u, s2, r, s3, heq1, hs1, heq2, hs2⟩)))
            | ok u2 =>
              simp only [hs2] at h
              split at h
              next e' t' heq3 =>
                rw [Prod.mk.injEq] at h
                obtain ⟨h1, h2⟩ := h
                injection h1 with h1
                subst h1
                subst h2
                exact Or.inr (Or.inr (Or.inr (Or.inr
                  ⟨q, s1, u, s2, r, s3, u2, s4, heq1, hs1, heq2, hs2, heq3⟩)))
              next p2 s5 heq3 =>
                cases h
    · rintro (h | ⟨q, s1, h1, h2⟩ | ⟨q, s1, u, s2, h1, h2, h3⟩ |
        ⟨q, s1, u, s2, r, s3, h1, h2, h3, h4⟩ |
        ⟨q, s1, u, s2, r, s3, u2, s4, h1, h2, h3, h4, h5⟩)
      · simp only [archive_root, h]
      · simp only [archive_root, h1, h2]
      · simp only [archive_root, h1, h2, h3]
      · simp only [archive_root, h1, h2, h3, h4]
      · simp only [archive_root, h1, h2, h3, h4, h5]
  · intro MRes serU serMeta U s t e
    constructor
    · intro h
      unfold archive_ref_root at h
      split at h
      next e' t' heq =>
        rw [Prod.mk.injEq] at h
        obtain ⟨h1, h2⟩ := h
        injection h1 with h1
        subst h1
        subst h2
        exact Or.inl heq
      next q s1 heq1 =>
        rcases hs1 : seek s1 (s1.pos + U.relSize) with ⟨resS1, s2⟩
        cases resS1 with
        | error e2 =>
          simp only [hs1] at h
          rw [Prod.mk.injEq] at h
          obtain ⟨h1, h2⟩ := h
          injection h1 with h1
          subst h1
          subst h2
          exact Or.inr (Or.inl ⟨q, s1, heq1, hs1⟩)
        | ok u =>
          simp only [hs1] at h
          split at h
          next e' t' heq2 =>
            rw [Prod.mk.injEq] at h
            obtain ⟨h1, h2⟩ := h
            injection h1 with h1
            subst h1
            subst h2
            exact Or.inr (Or.inr (Or.inl ⟨q, s1, u, s2, heq1, hs1, heq2⟩))
          next tg s3 heq2 =>
            split at h
            next e' t' heq3 =>
              rw [Prod.mk.injEq] at h
              obtain ⟨h1, h2⟩ := h
              injection h1 with h1
              subst h1
              subst h2
              exact Or.inr (Or.inr (Or.inr (Or.inl
                ⟨q, s1, u, s2, tg, s3, heq1, hs1, heq2, heq3⟩)))
            next m s4 heq3 =>
              rcases hs2 : seek s4 s1.pos with ⟨resS2, s5⟩
              cases resS2 with
              | error e2 =>
                simp only [hs2] at h
                rw [Prod.mk.injEq] at h
                obtain ⟨h1, h2⟩ := h
                injection h1 with h1
                subst h1
                subst h2
                exact Or.inr (Or.inr (Or.inr (Or.inr (Or.inl
                  ⟨q, s1, u, s2, tg, s3, m, s4, heq1, hs1, heq2, heq3, hs2⟩))))
              | ok u2 =>
                simp only [hs2] at h
                exact Or.inr (Or.inr (Or.inr (Or.inr (Or.inr
                  ⟨q, s1, u, s2, tg, s3, m, s4, u2, s5, heq1, hs1, heq2, heq3,
                    hs2, h⟩))))
    · rintro (h | ⟨q, s1, h1, h2⟩ | ⟨q, s1, u, s2, h1, h2, h3⟩ |
        ⟨q, s1, u, s2, tg, s3, h1, h2, h3, h4⟩ |
        ⟨q, s1, u, s2, tg, s3, m, s4, h1, h2, h3, h4, h5⟩ |
        ⟨q, s1, u, s2, tg, s3, m, s4, u2, s5, h1, h2, h3, h4, h5, h6⟩)
      · simp only [archive_ref_root, h]
      · simp only [archive_ref_root, h1, h2]
      · simp only [archive_ref_root, h1, h2, h3]
      · simp only [archive_ref_root, h1, h2, h3, h4]
      · simp only [archive_ref_root, h1, h2, h3, h4, h5]
      · simp only [archive_ref_root, h1, h2, h3, h4, h5, h6]

/-- Demonstration for C9 at concrete inputs: a failing phase 1 aborts
`serialize_value` with that error and an untouched sink, and a rejected
reservation seek (a capacity of 2 cannot reach position 4) aborts
`archive_root` with the medium's IO failure and an untouched sink. -/
theorem C9_witness :
    (serialize_value (serFail (.custom 3)) natArch emptySink =
      (.error (.custom 3), emptySink)) ∧
    (archive_root (serConst 7) natArch ⟨[], 0, some 2⟩ =
      (.error .ioFailure, ⟨[], 0, some 2⟩)) :=
  ⟨(C9_error_short_circuit.1 Nat (serFail (.custom 3)) natArch emptySink emptySink
      (.custom 3)).mpr (Or.inl rfl),
    (C9_error_short_circuit.2.2.1 Nat (serConst 7) natArch ⟨[], 0, some 2⟩
      ⟨[], 0, some 2⟩ .ioFailure).mpr
      (Or.inr (Or.inl ⟨0, ⟨[], 0, some 2⟩, rfl, rfl⟩))⟩

/-- C10: when `archive_root` returns `Ok(pos)`, the sink's position is
`pos + size_of::<T::Archived>()` — just past the header — not the end of
the dependent bytes written during phase 1. -/
theorem C10_archive_root_final_position (Res : Type) (ser : Phase1 Res)
    (A : ArchType Res) (s s' : SinkState) (p : Nat)
    (h : archive_root ser A s = (.ok p, s')) : s'.pos = p + A.size := by
  obtain ⟨q, s1, r, s3, p2, h1, hp, h2, h3⟩ := archive_root_ok h
  obtain ⟨hp2, hbuf, hpos, hcap, hread⟩ := resolve_aligned_ok h3
  rw [hpos]

/-- Witness for C10: the final position sits just past the 4-byte header
even though 3 dependent bytes extend beyond it. -/
theorem C10_witness :
    (⟨[some 4, some 0, some 0, some 0, some 1, some 2, some 3], 4,
        none⟩ : SinkState).pos = 0 + natArch.size :=
  C10_archive_root_final_position Nat (serWrite [1, 2, 3]) natArch emptySink
    ⟨[some 4, some 0, some 0, some 0, some 1, some 2, some 3], 4, none⟩ 0 rfl

/-- C5: the first `archive_shared` call for a given source identity fully
archives the value and records the identity-to-position mapping; every
later call with the same identity returns the cached position while
performing no writes to the sink (the sink state is returned untouched). -/
theorem C5_shared_first_archives_later_cached (serVal : Phase1 Nat) (ident : Nat)
    (st : SharedState) (pos : Nat) (s' : SinkState)
    (hmiss : lookupCache st.cache ident = none)
    (harch : serVal st.sink = (.ok pos, s')) :
    archive_shared serVal ident st = (.ok pos, ⟨s', (ident, pos) :: st.cache⟩) ∧
    archive_shared serVal ident ⟨s', (ident, pos) :: st.cache⟩ =
      (.ok pos, ⟨s', (ident, pos) :: st.cache⟩) ∧
    (∀ st2 : SharedState, lookupCache st2.cache ident = some pos →
      archive_shared serVal ident st2 = (.ok pos, st2)) := by
  refine ⟨?_, ?_, ?_⟩
  · simp only [archive_shared, hmiss, harch]
  · simp [archive_shared, lookupCache]
  · intro st2 hhit
    simp only [archive_shared, hhit]

/-- Witness for C5: identity token 5 archived once at position 0 (one byte
written), then found in the cache. -/
theorem C5_witness :
    archive_shared (serWrite [9]) 5 ⟨emptySink, []⟩ =
      (.ok 0, ⟨⟨[some 9], 1, none⟩, [(5, 0)]⟩) ∧
    archive_shared (serWrite [9]) 5 ⟨⟨[some 9], 1, none⟩, [(5, 0)]⟩ =
      (.ok 0, ⟨⟨[some 9], 1, none⟩, [(5, 0)]⟩) ∧
    (∀ st2 : SharedState, lookupCache st2.cache 5 = some 0 →
      archive_shared (serWrite [9]) 5 st2 = (.ok 0, st2)) :=
  C5_shared_first_archives_later_cached (serWrite [9]) 5 ⟨emptySink, []⟩ 0
    ⟨[some 9], 1, none⟩ rfl rfl

theorem imInsert_fresh {K V : Type} [DecidableEq K] (mp : List (K × V)) (k : K)
    (v : V) (hk : k ∉ imKeys mp) : imInsert mp k v = mp ++ [(k, v)] := by
  induction mp with
  | nil => rfl
  | cons hd t ih =>
    obtain ⟨k0, v0⟩ := hd
    simp only [imKeys, List.map_cons, List.mem_cons] at hk
    push_neg at hk
    simp only [imInsert]
    rw [if_neg (Ne.symm hk.1), List.cons_append]
    exact congrArg (List.cons (k0, v0)) (ih hk.2)

theorem deser_foldl_app {K V : Type} [DecidableEq K] :
    ∀ (l acc : List (K × V)), (imKeys (acc ++ l)).Nodup →
      l.foldl (fun mp kv => imInsert mp kv.1 kv.2) acc = acc ++ l := by
  intro l
  induction l with
  | nil => intro acc _; simp
  | cons hd t ih =>
    intro acc hnd
    obtain ⟨k, v⟩ := hd
    have hassoc : acc ++ (k, v) :: t = (acc ++ [(k, v)]) ++ t := by simp
    have hknotin : k ∉ imKeys acc := by
      simp only [imKeys, List.map_append, List.map_cons, List.nodup_append] at hnd
      intro hmem
      exact hnd.2.2 hmem (by simp)
    rw [List.foldl_cons]
    simp only
    rw [imInsert_fresh acc k v hknotin, ih (acc ++ [(k, v)]) (by rw [hassoc] at hnd; exact hnd)]
    simp

/-- Deserializing a list of entries with pairwise distinct keys rebuilds
exactly that list: each insert hits a fresh key and appends. -/
theorem deserializeIndexMap_nodup {K V : Type} [DecidableEq K]
    (l : List (K × V)) (hnd : (imKeys l).Nodup) : deserializeIndexMap l = l := by
  have := deser_foldl_app l [] (by simpa using hnd)
  simpa [deserializeIndexMap] using this

theorem deserializeIndexMap_mem {K V : Type} [DecidableEq K]
    (m a : List (K × V)) (hnodup : (imKeys m).Nodup) (hperm : a.Perm m)
    (kv : K × V) : kv ∈ deserializeIndexMap a ↔ kv ∈ m := by
  have hkeysperm : (imKeys a).Perm (imKeys m) := hperm.map Prod.fst
  have hnda : (imKeys a).Nodup := (hkeysperm.nodup_iff).mpr hnodup
  rw [deserializeIndexMap_nodup a hnda]
  exact hperm.mem_iff

/-- C3: for every `IndexMap` value (an association list with distinct
keys), deserializing its archived form — the external hash codec returns
the same pairs in an unspecified order, modelled by any permutation —
preserves exactly the key/value set; consequently two maps holding the same
pairs inserted in different orders archive and decode to equal sets. -/
theorem C3_indexmap_roundtrip_pair_set (K V : Type) [DecidableEq K]
    (m a : List (K × V)) (hnodup : (imKeys m).Nodup)
    (hperm : chdPossibleIteration m a) :
    (∀ kv : K × V, kv ∈ deserializeIndexMap a ↔ kv ∈ m) ∧
    (∀ m2 a2 : List (K × V), (imKeys m2).Nodup → chdPossibleIteration m2 a2 →
      (∀ kv : K × V, kv ∈ m2 ↔ kv ∈ m) →
      ∀ kv : K × V, kv ∈ deserializeIndexMap a2 ↔ kv ∈ deserializeIndexMap a) := by
  refine ⟨deserializeIndexMap_mem m a hnodup hperm, ?_⟩
  intro m2 a2 hnd2 hperm2 hsame kv
  rw [deserializeIndexMap_mem m2 a2 hnd2 hperm2 kv, hsame kv,
    deserializeIndexMap_mem m a hnodup hperm kv]

/-- Witness for C3: the map {1 ↦ 10, 2 ↦ 20} archived in reversed iteration
order still decodes to the same pair set. -/
theorem C3_witness :
    ((1, 10) ∈ deserializeIndexMap [(2, 20), (1, 10)] ↔
      (1, 10) ∈ [(1, (10 : Nat)), (2, 20)]) ∧
    ((2, 20) ∈ deserializeIndexMap [(2, 20), (1, 10)] ↔
      (2, 20) ∈ [(1, (10 : Nat)), (2, 20)]) :=
  ⟨(C3_indexmap_roundtrip_pair_set Nat Nat [(1, 10), (2, 20)] [(2, 20), (1, 10)]
      (by decide) (by decide)).1 (1, 10),
    (C3_indexmap_roundtrip_pair_set Nat Nat [(1, 10), (2, 20)] [(2, 20), (1, 10)]
      (by decide) (by decide)).1 (2, 20)⟩

/-- C4: archiving a `PrimaryMap` and reading it back preserves index order:
the round trip is the identity on the element vector, and in particular the
map built by sequentially inserting 10, 20, 30 at indices 0, 1, 2 has value
20 at index 1 after the round trip. -/
theorem C4_primarymap_order_preserved (V : Type) (m : PrimaryMapPub V) :
    deserializePrimaryMap (archivePrimaryMap m) = m ∧
    pmGet (deserializePrimaryMap (archivePrimaryMap
      (pmPush (pmPush (pmPush ⟨([] : List Nat)⟩ 10).1 20).1 30).1)) 1 = some 20 :=
  ⟨rfl, rfl⟩

end Rkyv
